import Mathlib

/-!
Verification of the netlink-rs message framing layer.

Shallow embedding of the repository's source:
  * `src/socket/msg.rs`    — `MsgType`, flag groups, `NlMsgHeader` and its
    fluent setters, header encode (`bytes`) / decode (`from_bytes`);
  * `src/socket/mod.rs`    — alignment macros, `Payload`, `Msg`, and the
    multipart assembly loop of `Socket::recv`;
  * `src/socket/address.rs` — `NetlinkAddr` and the generic `sockaddr`
    conversions.

Byte buffers are `List Nat` whose elements stand for `u8` values; all
multi-byte fields are serialized little-endian, which is the native byte
order the repository's tests assume ("Little endian only right now").
Machine integers are `Nat` with explicit `% 2^32` / `% 2^16` where a Rust
cast truncates.  Fallible operations return `Option`; code paths that can
hit a Rust arithmetic-overflow panic return `RRes`, which has a dedicated
`panic` outcome distinct from a recoverable decode error.
-/

/-- Little-endian byte decoding: value of a byte list, least significant
byte first (the reading direction of `byteorder`'s `read_u32::<NativeEndian>`
on a little-endian host). -/
def leVal : List Nat → Nat
  | [] => 0
  | b :: bs => b + 256 * leVal bs

/-- Little-endian byte encoding of `n` into `k` bytes (the layout the
`#[repr(C)]` header struct has in memory on a little-endian host). -/
def leBytes : Nat → Nat → List Nat
  | 0, _ => []
  | k + 1, n => n % 256 :: leBytes k (n / 256)

/-- Read `k` bytes as a little-endian value; fails (like the `byteorder`
cursor reads in the source) when fewer than `k` bytes remain. -/
def readLE (k : Nat) (bs : List Nat) : Option Nat :=
  if k ≤ bs.length then some (leVal (bs.take k)) else none

-- const NLMSG_ALIGNTO: usize = 4;
def NLMSG_ALIGNTO : Nat := 4

/-- `fn nlmsg_align(len: usize) -> usize { (len + (NLMSG_ALIGNTO - 1)) & !(NLMSG_ALIGNTO - 1) }`
(`!3` on a 64-bit `usize` is `2^64 - 4`). -/
def nlmsg_align (len : Nat) : Nat :=
  (len + (NLMSG_ALIGNTO - 1)) &&& (2 ^ 64 - NLMSG_ALIGNTO)

/-- `fn nlmsg_header_length() -> usize { nlmsg_align(size_of::<NlMsgHeader>()) }`;
`size_of::<NlMsgHeader>()` is 16 (`#[repr(C)]`: u32, u16, u16, u32, u32, no padding). -/
def nlmsg_header_length : Nat := nlmsg_align 16

/-- `fn nlmsg_length(len: usize) -> usize { len + nlmsg_align(nlmsg_header_length()) }` -/
def nlmsg_length (len : Nat) : Nat := len + nlmsg_align nlmsg_header_length

/-- `enum MsgType` from `src/socket/msg.rs`. -/
inductive MsgType where
  | Request
  | Noop
  | Error
  | Done
  | Overrun
  | MinType
  | UserDefined (i : Nat)
  deriving DecidableEq

/-- `impl From<u16> for MsgType` (a `match` on the reserved codes, every
other value mapping to `UserDefined`). -/
def MsgType.ofNat (t : Nat) : MsgType :=
  if t = 0 then .Request
  else if t = 1 then .Noop
  else if t = 2 then .Error
  else if t = 3 then .Done
  else if t = 4 then .Overrun
  else if t = 10 then .MinType
  else .UserDefined t

/-- `impl Into<u16> for MsgType`. -/
def MsgType.toNat : MsgType → Nat
  | .Request => 0
  | .Noop => 1
  | .Error => 2
  | .Done => 3
  | .Overrun => 4
  | .MinType => 10
  | .UserDefined i => i

namespace Flags
-- enum Flags: Request = 1, Multi = 2, Ack = 4, Echo = 8
def Request : Nat := 1
def Multi : Nat := 2
def Ack : Nat := 4
def Echo : Nat := 8
end Flags

namespace GetFlags
-- enum GetFlags: Root = 0x100, Match = 0x200, Atomic = 0x400, Dump = Root|Match
def Root : Nat := 0x100
def Match : Nat := 0x200
def Atomic : Nat := 0x400
def Dump : Nat := 0x100 ||| 0x200
end GetFlags

namespace NewFlags
-- enum NewFlags: Replace = 0x100, Excl = 0x200, Create = 0x400, Append = 0x800
def Replace : Nat := 0x100
def Excl : Nat := 0x200
def Create : Nat := 0x400
def Append : Nat := 0x800
end NewFlags

/-- `struct NlMsgHeader { msg_length: u32, nl_type: u16, flags: u16, seq: u32, pid: u32 }`.
The sequence and pid fields carry the `nlmsg_` prefix of the underlying C
struct so that the source's chainable `seq`/`pid` setters can keep their
names below. -/
structure NlMsgHeader where
  msg_length : Nat
  nl_type : Nat
  flags : Nat
  nlmsg_seq : Nat
  nlmsg_pid : Nat
  deriving DecidableEq

namespace NlMsgHeader

/-- Field ranges guaranteed by the Rust types (`u32`/`u16`); every header the
source can build satisfies this by construction. -/
def wf (h : NlMsgHeader) : Prop :=
  h.msg_length < 2 ^ 32 ∧ h.nl_type < 2 ^ 16 ∧ h.flags < 2 ^ 16 ∧
    h.nlmsg_seq < 2 ^ 32 ∧ h.nlmsg_pid < 2 ^ 32

instance (h : NlMsgHeader) : Decidable h.wf := by unfold wf; infer_instance

/-- `NlMsgHeader::user_defined(t)` (`t` is a `u16`). -/
def user_defined (t : Nat) : NlMsgHeader :=
  { msg_length := nlmsg_header_length
    nl_type := t
    flags := Flags.Request
    nlmsg_seq := 0
    nlmsg_pid := 0 }

/-- `NlMsgHeader::request()`. -/
def request : NlMsgHeader :=
  { msg_length := nlmsg_header_length
    nl_type := MsgType.toNat .Request
    flags := Flags.Request
    nlmsg_seq := 0
    nlmsg_pid := 0 }

/-- `NlMsgHeader::done()`. -/
def done : NlMsgHeader :=
  { msg_length := nlmsg_header_length
    nl_type := MsgType.toNat .Done
    flags := Flags.Multi
    nlmsg_seq := 0
    nlmsg_pid := 0 }

/-- `NlMsgHeader::error()` (length pre-computed for a `nlmsgerr` record). -/
def error : NlMsgHeader :=
  { msg_length := nlmsg_length (nlmsg_header_length + 4)
    nl_type := MsgType.toNat .Error
    flags := 0
    nlmsg_seq := 0
    nlmsg_pid := 0 }

/-- `NlMsgHeader::from_bytes`: five sequential `byteorder` cursor reads
(u32, u16, u16, u32, u32); the cursor position — 16 — is returned as the
consumed byte count. -/
def from_bytes (bs : List Nat) : Option (NlMsgHeader × Nat) := do
  let len ← readLE 4 bs
  let ty ← readLE 2 (bs.drop 4)
  let fl ← readLE 2 (bs.drop 6)
  let sq ← readLE 4 (bs.drop 8)
  let pd ← readLE 4 (bs.drop 12)
  pure (⟨len, ty, fl, sq, pd⟩, 16)

/-- `NlMsgHeader::bytes`: the source returns the raw 16-byte memory of the
`#[repr(C)]` struct; on a little-endian host that is the little-endian
serialization of the five fields in declaration order. -/
def bytes (h : NlMsgHeader) : List Nat :=
  leBytes 4 h.msg_length ++ leBytes 2 h.nl_type ++ leBytes 2 h.flags ++
    leBytes 4 h.nlmsg_seq ++ leBytes 4 h.nlmsg_pid

/-- `NlMsgHeader::msg_type`. -/
def msg_type (h : NlMsgHeader) : MsgType := MsgType.ofNat h.nl_type

/-- `NlMsgHeader::data_length(len: u32)`: `msg_length = nlmsg_length(len as usize) as u32`
(the final `as u32` cast truncates mod `2^32`). -/
def data_length (h : NlMsgHeader) (len : Nat) : NlMsgHeader :=
  { h with msg_length := nlmsg_length len % 2 ^ 32 }

/-- `NlMsgHeader::multipart()`. -/
def multipart (h : NlMsgHeader) : NlMsgHeader := { h with flags := h.flags ||| Flags.Multi }

/-- `NlMsgHeader::ack()`. -/
def ack (h : NlMsgHeader) : NlMsgHeader := { h with flags := h.flags ||| Flags.Ack }

/-- `NlMsgHeader::echo()`. -/
def echo (h : NlMsgHeader) : NlMsgHeader := { h with flags := h.flags ||| Flags.Echo }

/-- `NlMsgHeader::seq(n: u32)`. -/
def seq (h : NlMsgHeader) (n : Nat) : NlMsgHeader := { h with nlmsg_seq := n }

/-- `NlMsgHeader::pid(n: u32)`. -/
def pid (h : NlMsgHeader) (n : Nat) : NlMsgHeader := { h with nlmsg_pid := n }

/-- `NlMsgHeader::replace()`. -/
def replace (h : NlMsgHeader) : NlMsgHeader := { h with flags := h.flags ||| NewFlags.Replace }

/-- `NlMsgHeader::excl()`. -/
def excl (h : NlMsgHeader) : NlMsgHeader := { h with flags := h.flags ||| NewFlags.Excl }

/-- `NlMsgHeader::create()`. -/
def create (h : NlMsgHeader) : NlMsgHeader := { h with flags := h.flags ||| NewFlags.Create }

/-- `NlMsgHeader::append()`. -/
def append (h : NlMsgHeader) : NlMsgHeader := { h with flags := h.flags ||| NewFlags.Append }

/-- `NlMsgHeader::root()`. -/
def root (h : NlMsgHeader) : NlMsgHeader := { h with flags := h.flags ||| GetFlags.Root }

/-- `NlMsgHeader::match_provided()`. -/
def match_provided (h : NlMsgHeader) : NlMsgHeader := { h with flags := h.flags ||| GetFlags.Match }

/-- `NlMsgHeader::atomic()`. -/
def atomic (h : NlMsgHeader) : NlMsgHeader := { h with flags := h.flags ||| GetFlags.Atomic }

/-- `NlMsgHeader::dump()`. -/
def dump (h : NlMsgHeader) : NlMsgHeader := { h with flags := h.flags ||| GetFlags.Dump }

end NlMsgHeader

/-- Outcome of running a fallible Rust code path: `ok`, a recoverable
`io::Error` (`err`), or a Rust panic (`panic`) — the latter arises from the
unguarded `usize` subtraction in `Msg::from_bytes`, which panics on
underflow when overflow checks are enabled (the profile the crate's own
tests run under; with checks off it wraps mod `2^64` instead). -/
inductive RRes (α : Type) where
  | ok (a : α)
  | err
  | panic
  deriving DecidableEq

/-- Functorial action on the `ok` outcome; `err` and `panic` pass through. -/
def RRes.map {α β : Type} (f : α → β) : RRes α → RRes β
  | .ok a => .ok (f a)
  | .err => .err
  | .panic => .panic

/-- `enum Payload<'a>` from `src/socket/mod.rs`. -/
inductive Payload where
  | None
  | Data (b : List Nat)
  | Ack (h : NlMsgHeader)
  | Err (h : NlMsgHeader)
  deriving DecidableEq

namespace Payload

/-- `Payload::data(bytes, len)`: errors when the buffer holds fewer than
`len` bytes, otherwise borrows the first `len` bytes. -/
def data (bytes : List Nat) (len : Nat) : Option (Payload × Nat) :=
  if bytes.length < len then none
  else some (.Data (bytes.take len), len)

/-- `Payload::nlmsg_error(bytes)`: a 4-byte native-order error code (cursor
position 4 afterwards), then an embedded header; code 0 is an Ack, anything
else an Err; consumed = 4 + header bytes consumed. -/
def nlmsg_error (bytes : List Nat) : Option (Payload × Nat) := do
  let e ← readLE 4 bytes
  let (hdr, n2) ← NlMsgHeader.from_bytes (bytes.drop 4)
  if e = 0 then pure (.Ack hdr, 4 + n2) else pure (.Err hdr, 4 + n2)

/-- `Payload::bytes` (the vector writes in the source are infallible, so the
`io::Result` is always `Ok` and the function is modelled as pure): `None` is
empty, `Data` is the slice itself, `Ack`/`Err` are a native-order 4-byte
0 / 1 followed by the embedded header's bytes. -/
def bytes : Payload → List Nat
  | .None => []
  | .Data b => b
  | .Ack h => leBytes 4 0 ++ h.bytes
  | .Err h => leBytes 4 1 ++ h.bytes

end Payload

/-- `struct Msg<'a> { header: NlMsgHeader, payload: Payload<'a> }`. -/
structure Msg where
  header : NlMsgHeader
  payload : Payload
  deriving DecidableEq

namespace Msg

/-- `Msg::new`. -/
def new (hdr : NlMsgHeader) (payload : Payload) : Msg := ⟨hdr, payload⟩

/-- `Msg::from_bytes`: decode a header, then dispatch on its type — `Done`
carries no payload (0 extra bytes), `Error` delegates to
`Payload::nlmsg_error`, and everything else reads a data payload of
`msg_length - header_length` bytes.  That subtraction
(`hdr.msg_length() as usize - nlmsg_header_length()`) has no underflow
guard in the source: when `msg_length < 16` it is a Rust arithmetic
underflow, a panic under the overflow checks the crate's tests build with
(in release it wraps to a huge length that then fails the buffer check). -/
def from_bytes (bs : List Nat) : RRes (Msg × Nat) :=
  match NlMsgHeader.from_bytes bs with
  | none => .err
  | some (hdr, n) =>
    match hdr.msg_type with
    | .Done => .ok (⟨hdr, .None⟩, n + 0)
    | .Error =>
      match Payload.nlmsg_error (bs.drop n) with
      | none => .err
      | some (payload, n2) => .ok (⟨hdr, payload⟩, n + n2)
    | _ =>
      if hdr.msg_length < nlmsg_header_length then .panic
      else
        match Payload.data (bs.drop n) (hdr.msg_length - nlmsg_header_length) with
        | none => .err
        | some (payload, n2) => .ok (⟨hdr, payload⟩, n + n2)

/-- `Msg::bytes`: header bytes followed by payload bytes. -/
def bytes (m : Msg) : List Nat := m.header.bytes ++ m.payload.bytes

end Msg

/-- One iteration-bounded run of the `while let Ok((msg, num_bytes)) = ...`
loop in `Socket::recv`: a decode error ends the loop (returning what was
assembled), a `Done` message breaks without being appended, anything else is
appended and the cursor advances by the consumed count.  `fuel` only bounds
the recursion for Lean's sake: every successful decode consumes at least the
16 header bytes, so a fuel of the buffer's length can never run out before
the loop stops on its own. -/
def assembleGo : Nat → List Nat → RRes (List Msg)
  | 0, _ => .ok []
  | fuel + 1, bs =>
    match Msg.from_bytes bs with
    | .err => .ok []
    | .panic => .panic
    | .ok (msg, num_bytes) =>
      match msg.header.msg_type with
      | .Done => .ok []
      | _ => RRes.map (fun rest => msg :: rest) (assembleGo fuel (bs.drop num_bytes))

/-- The multipart assembly loop of `Socket::recv` over a byte buffer. -/
def assemble (bs : List Nat) : RRes (List Msg) := assembleGo bs.length bs

namespace Socket

/-- `Socket::new` allocates the receive scratch buffer: 4096 zero bytes. -/
def newBuf : List Nat := List.replicate 4096 0

/-- The buffer contents after `recvfrom_into`: the datagram is written over
the buffer's prefix (truncated to the buffer's capacity) and the old bytes
beyond it are left untouched. -/
def recvBuf (old dgram : List Nat) : List Nat :=
  dgram.take old.length ++ old.drop (min dgram.length old.length)

/-- The message-assembly part of `Socket::recv`: the byte count reported by
`recvfrom_into` is discarded (`let (saddr, _) = ...`), and the assembly loop
runs over the entire scratch buffer. -/
def recvMsgs (old dgram : List Nat) : RRes (List Msg) := assemble (recvBuf old dgram)

end Socket

/-- `struct sockaddr_nl { nl_family: sa_family_t, nl_pad: c_ushort, nl_pid: u32, nl_groups: u32 }`. -/
structure sockaddr_nl where
  nl_family : Nat
  nl_pad : Nat
  nl_pid : Nat
  nl_groups : Nat
  deriving DecidableEq

/-- `libc::AF_NETLINK`. -/
def AF_NETLINK : Nat := 16

/-- Generic `libc::sockaddr`: a 2-byte family tag followed by the `sa_data`
byte array (we model the 10 bytes the netlink conversions actually read;
the remaining bytes of the C struct are never inspected). -/
structure sockaddr where
  sa_family : Nat
  sa_data : List Nat
  deriving DecidableEq

/-- `pub struct NetlinkAddr(sockaddr_nl)` from `src/socket/address.rs`
(the revision without host/network byte swapping). -/
structure NetlinkAddr where
  snl : sockaddr_nl
  deriving DecidableEq

namespace NetlinkAddr

/-- `NetlinkAddr::new(pid, groups)`: stores the fields directly, tagged with
the netlink family. -/
def new (pid groups : Nat) : NetlinkAddr :=
  ⟨⟨AF_NETLINK, 0, pid, groups⟩⟩

/-- `NetlinkAddr::pid()`. -/
def pid (a : NetlinkAddr) : Nat := a.snl.nl_pid

/-- `NetlinkAddr::groups()`. -/
def groups (a : NetlinkAddr) : Nat := a.snl.nl_groups

/-- `NetlinkAddr::as_sockaddr()`: the source reinterprets the `sockaddr_nl`
memory as a generic `sockaddr`; on a little-endian host the family tag lands
in `sa_family` and the pad/pid/groups bytes become the data prefix. -/
def as_sockaddr (a : NetlinkAddr) : sockaddr :=
  ⟨a.snl.nl_family,
    leBytes 2 a.snl.nl_pad ++ leBytes 4 a.snl.nl_pid ++ leBytes 4 a.snl.nl_groups⟩

end NetlinkAddr

/-- `sockaddr_to_netlinkaddr`: errors unless the family tag is netlink,
otherwise reinterprets the memory back and rebuilds the address from the pid
and groups fields (at byte offsets 2 and 6 of the data area). -/
def sockaddr_to_netlinkaddr (sa : sockaddr) : Option NetlinkAddr :=
  if sa.sa_family = AF_NETLINK then
    some (NetlinkAddr.new (leVal ((sa.sa_data.drop 2).take 4))
      (leVal ((sa.sa_data.drop 6).take 4)))
  else none

/-- The header-mutation calls claim C3 ranges over: `data_length(n)`, every
flag setter, `seq(n)` and `pid(n)`. -/
inductive HOp where
  | data_length (n : Nat)
  | multipart
  | ack
  | echo
  | replace
  | excl
  | create
  | append
  | root
  | match_provided
  | atomic
  | dump
  | seq (n : Nat)
  | pid (n : Nat)

/-- Apply one setter; the numeric arguments are `u32` in the source, modelled
by reducing an arbitrary `Nat` argument mod `2^32` at the call boundary. -/
def applyOp (h : NlMsgHeader) : HOp → NlMsgHeader
  | .data_length n => h.data_length (n % 2 ^ 32)
  | .multipart => h.multipart
  | .ack => h.ack
  | .echo => h.echo
  | .replace => h.replace
  | .excl => h.excl
  | .create => h.create
  | .append => h.append
  | .root => h.root
  | .match_provided => h.match_provided
  | .atomic => h.atomic
  | .dump => h.dump
  | .seq n => h.seq (n % 2 ^ 32)
  | .pid n => h.pid (n % 2 ^ 32)

/-- A chained sequence of setter calls, applied left to right. -/
def applyOps (h : NlMsgHeader) (ops : List HOp) : NlMsgHeader :=
  ops.foldl applyOp h

/-! ### Arithmetic and byte-level helper lemmas -/

theorem nlmsg_header_length_eq : nlmsg_header_length = 16 := by decide

theorem nlmsg_length_eq (n : Nat) : nlmsg_length n = n + 16 := by
  unfold nlmsg_length
  rw [show nlmsg_align nlmsg_header_length = 16 from by decide]

theorem leBytes_four (n : Nat) :
    leBytes 4 n = [n % 256, n / 256 % 256, n / 256 / 256 % 256, n / 256 / 256 / 256 % 256] := rfl

theorem leBytes_two (n : Nat) : leBytes 2 n = [n % 256, n / 256 % 256] := rfl

theorem leBytes_length (k n : Nat) : (leBytes k n).length = k := by
  induction k generalizing n with
  | zero => rfl
  | succ k ih => simp [leBytes, ih]

/-- The 16 bytes of an encoded header, written as one explicit byte list. -/
theorem NlMsgHeader.bytes_explicit (h : NlMsgHeader) (rest : List Nat) :
    h.bytes ++ rest =
      h.msg_length % 256 :: h.msg_length / 256 % 256 :: h.msg_length / 256 / 256 % 256 ::
      h.msg_length / 256 / 256 / 256 % 256 ::
      h.nl_type % 256 :: h.nl_type / 256 % 256 ::
      h.flags % 256 :: h.flags / 256 % 256 ::
      h.nlmsg_seq % 256 :: h.nlmsg_seq / 256 % 256 :: h.nlmsg_seq / 256 / 256 % 256 ::
      h.nlmsg_seq / 256 / 256 / 256 % 256 ::
      h.nlmsg_pid % 256 :: h.nlmsg_pid / 256 % 256 :: h.nlmsg_pid / 256 / 256 % 256 ::
      h.nlmsg_pid / 256 / 256 / 256 % 256 :: rest := rfl

theorem NlMsgHeader.bytes_length (h : NlMsgHeader) : h.bytes.length = 16 := by
  simp [NlMsgHeader.bytes, leBytes_length]


theorem NlMsgHeader.from_bytes_cons
    (b0 b1 b2 b3 b4 b5 b6 b7 b8 b9 b10 b11 b12 b13 b14 b15 : Nat) (rest : List Nat) :
    NlMsgHeader.from_bytes
        (b0 :: b1 :: b2 :: b3 :: b4 :: b5 :: b6 :: b7 :: b8 :: b9 :: b10 :: b11 ::
          b12 :: b13 :: b14 :: b15 :: rest) =
      some (⟨leVal [b0, b1, b2, b3], leVal [b4, b5], leVal [b6, b7],
        leVal [b8, b9, b10, b11], leVal [b12, b13, b14, b15]⟩, 16) := by
  simp [NlMsgHeader.from_bytes, readLE, List.length_cons]

theorem NlMsgHeader.from_bytes_bytes (h : NlMsgHeader) (hwf : h.wf) (rest : List Nat) :
    NlMsgHeader.from_bytes (h.bytes ++ rest) = some (h, 16) := by
  obtain ⟨hL, hT, hF, hS, hP⟩ := hwf
  rw [NlMsgHeader.bytes_explicit, NlMsgHeader.from_bytes_cons]
  obtain ⟨L, T, F, S, P⟩ := h
  simp only [NlMsgHeader.mk.injEq, Option.some.injEq, Prod.mk.injEq, leVal] at *
  refine ⟨⟨?_, ?_, ?_, ?_, ?_⟩, trivial⟩ <;> omega

/-- Header decode fails exactly when fewer than 16 bytes are available. -/
theorem NlMsgHeader.from_bytes_short (bs : List Nat) (hlen : bs.length < 16) :
    NlMsgHeader.from_bytes bs = none := by
  simp only [NlMsgHeader.from_bytes, readLE, List.length_drop, Option.bind_eq_bind]
  by_cases h4 : 4 ≤ bs.length
  · rw [if_pos h4]
    by_cases h6 : 2 ≤ bs.length - 4
    · rw [if_pos h6]
      by_cases h8 : 2 ≤ bs.length - 6
      · rw [if_pos h8]
        by_cases h12 : 4 ≤ bs.length - 8
        · rw [if_pos h12, if_neg (by omega)]; rfl
        · rw [if_neg h12]; rfl
      · rw [if_neg h8]; rfl
    · rw [if_neg h6]; rfl
  · rw [if_neg h4]; rfl

/-- When header decode succeeds, the buffer held at least 16 bytes and the
reported consumed count is exactly 16. -/
theorem NlMsgHeader.from_bytes_ok (bs : List Nat) (h : NlMsgHeader) (n : Nat)
    (hok : NlMsgHeader.from_bytes bs = some (h, n)) : n = 16 ∧ 16 ≤ bs.length := by
  by_cases hlen : 16 ≤ bs.length
  · refine ⟨?_, hlen⟩
    simp only [NlMsgHeader.from_bytes, readLE, List.length_drop, Option.bind_eq_bind] at hok
    rw [if_pos (by omega), if_pos (by omega), if_pos (by omega), if_pos (by omega),
      if_pos (by omega)] at hok
    simp only [Option.some_bind, pure, Option.some.injEq, Prod.mk.injEq] at hok
    exact hok.2.symm
  · rw [NlMsgHeader.from_bytes_short bs (by omega)] at hok
    exact absurd hok (by simp)

theorem MsgType.ofNat_eq_Error (t : Nat) : MsgType.ofNat t = .Error ↔ t = 2 := by
  unfold MsgType.ofNat; split_ifs <;> simp_all

theorem MsgType.ofNat_eq_Done (t : Nat) : MsgType.ofNat t = .Done ↔ t = 3 := by
  unfold MsgType.ofNat; split_ifs <;> simp_all

/-- `Msg::from_bytes` on a buffer of fewer than 16 bytes is a decode error. -/
theorem Msg.from_bytes_too_short (bs : List Nat) (hlen : bs.length < 16) :
    Msg.from_bytes bs = .err := by
  simp [Msg.from_bytes, NlMsgHeader.from_bytes_short bs hlen]

/-- Decoding a buffer that starts with the encoding of a data-payload message
whose header is in range, has a non-`Error`/non-`Done` type, and declares
`msg_length = 16 + payload length`, yields exactly that message and consumes
its full encoding length. -/
theorem Msg.from_bytes_data (h : NlMsgHeader) (b rest : List Nat) (hwf : h.wf)
    (h2 : h.nl_type ≠ 2) (h3 : h.nl_type ≠ 3) (hlen : h.msg_length = 16 + b.length) :
    Msg.from_bytes ((Msg.new h (.Data b)).bytes ++ rest) =
      .ok (Msg.new h (.Data b), 16 + b.length) := by
  have hshape : (Msg.new h (.Data b)).bytes ++ rest = h.bytes ++ (b ++ rest) := by
    simp [Msg.bytes, Msg.new, Payload.bytes, List.append_assoc]
  have hok : NlMsgHeader.from_bytes ((Msg.new h (.Data b)).bytes ++ rest) = some (h, 16) := by
    rw [hshape]; exact h.from_bytes_bytes hwf _
  have hdrop : ((Msg.new h (.Data b)).bytes ++ rest).drop 16 = b ++ rest := by
    rw [hshape, List.drop_left' h.bytes_length]
  cases hmt : h.msg_type
  case Error => exact absurd ((MsgType.ofNat_eq_Error _).mp hmt) h2
  case Done => exact absurd ((MsgType.ofNat_eq_Done _).mp hmt) h3
  all_goals
    simp only [Msg.from_bytes, hok, hmt, nlmsg_header_length_eq, hdrop, hlen]
    rw [if_neg (by omega)]
    simp only [Payload.data, List.length_append]
    rw [if_neg (by omega), show 16 + b.length - 16 = b.length from by omega, List.take_left]
    rfl

/-- Decoding a buffer that starts with an in-range header of type `Done`
yields a payload-free message and consumes only the 16 header bytes. -/
theorem Msg.from_bytes_done (h : NlMsgHeader) (rest : List Nat) (hwf : h.wf)
    (h3 : h.nl_type = 3) :
    Msg.from_bytes (h.bytes ++ rest) = .ok (Msg.new h .None, 16) := by
  have hok := h.from_bytes_bytes hwf rest
  have hmt : h.msg_type = .Done := (MsgType.ofNat_eq_Done _).mpr h3
  simp [Msg.from_bytes, hok, hmt, Msg.new]

/-- Any successful `Msg::from_bytes` consumed at least the 16 header bytes,
out of a buffer at least 16 bytes long. -/
theorem Msg.from_bytes_ok_bounds (bs : List Nat) (m : Msg) (n : Nat)
    (hok : Msg.from_bytes bs = .ok (m, n)) : 16 ≤ n ∧ 16 ≤ bs.length := by
  unfold Msg.from_bytes at hok
  cases hh : NlMsgHeader.from_bytes bs with
  | none => rw [hh] at hok; exact absurd hok (by simp)
  | some v =>
    obtain ⟨hdr, k⟩ := v
    obtain ⟨hk, hblen⟩ := NlMsgHeader.from_bytes_ok bs hdr k hh
    subst hk
    simp only [hh] at hok
    refine ⟨?_, hblen⟩
    cases hmt : hdr.msg_type <;> simp only [hmt] at hok
    case Done => simp only [RRes.ok.injEq, Prod.mk.injEq] at hok; omega
    case Error =>
      cases he : Payload.nlmsg_error (bs.drop 16) <;> rw [he] at hok
      · exact absurd hok (by simp)
      · obtain ⟨p, n2⟩ := ‹Payload × Nat›
        simp only [RRes.ok.injEq, Prod.mk.injEq] at hok; omega
    all_goals
      by_cases hu : hdr.msg_length < nlmsg_header_length
      · rw [if_pos hu] at hok
        exact absurd hok (by simp)
      · rw [if_neg hu] at hok
        cases hd : Payload.data (bs.drop 16) (hdr.msg_length - nlmsg_header_length) <;>
          simp only [hd] at hok
        · exact absurd hok (by simp)
        · obtain ⟨p, n2⟩ := ‹Payload × Nat›
          simp only [RRes.ok.injEq, Prod.mk.injEq] at hok
          omega

/-- `Msg::from_bytes` of the empty buffer is a decode error. -/
theorem Msg.from_bytes_nil : Msg.from_bytes [] = .err := by
  exact Msg.from_bytes_too_short [] (by simp)

/-- The fuel parameter of `assembleGo` is irrelevant as soon as it is at
least the buffer length: every loop iteration consumes at least 16 bytes. -/
theorem assembleGo_fuel (f1 f2 : Nat) (bs : List Nat)
    (h1 : bs.length ≤ f1) (h2 : bs.length ≤ f2) :
    assembleGo f1 bs = assembleGo f2 bs := by
  induction f1 generalizing f2 bs with
  | zero =>
    have hbs : bs = [] := List.eq_nil_of_length_eq_zero (by omega)
    subst hbs
    cases f2 <;> simp [assembleGo, Msg.from_bytes_nil]
  | succ f ih =>
    cases f2 with
    | zero =>
      have hbs : bs = [] := List.eq_nil_of_length_eq_zero (by omega)
      subst hbs
      simp [assembleGo, Msg.from_bytes_nil]
    | succ f2' =>
      simp only [assembleGo]
      cases hfb : Msg.from_bytes bs with
      | err => simp [hfb]
      | panic => simp [hfb]
      | ok v =>
        obtain ⟨m, n⟩ := v
        obtain ⟨hn, hblen⟩ := Msg.from_bytes_ok_bounds bs m n hfb
        simp only [hfb]
        have hdl : (bs.drop n).length ≤ f ∧ (bs.drop n).length ≤ f2' := by
          simp only [List.length_drop]; omega
        cases m.header.msg_type <;>
          simp only [RRes.map, ih f2' (bs.drop n) hdl.1 hdl.2]

/-- If decoding fails at the front of the buffer, assembly returns the empty
sequence without error. -/
theorem assemble_err (bs : List Nat) (h : Msg.from_bytes bs = .err) :
    assemble bs = .ok [] := by
  unfold assemble
  cases hl : bs.length <;> simp [assembleGo, h]

/-- If the front of the buffer decodes to a `Done` message, assembly stops
and returns the empty sequence, excluding the terminator. -/
theorem assemble_done (bs : List Nat) (m : Msg) (n : Nat)
    (hok : Msg.from_bytes bs = .ok (m, n)) (hd : m.header.msg_type = .Done) :
    assemble bs = .ok [] := by
  obtain ⟨hn, hblen⟩ := Msg.from_bytes_ok_bounds bs m n hok
  unfold assemble
  obtain ⟨k, hk⟩ : ∃ k, bs.length = k + 1 := ⟨bs.length - 1, by omega⟩
  rw [hk]
  simp [assembleGo, hok, hd]

/-- If the front of the buffer decodes to a non-`Done` message, assembly
prepends it and continues after the consumed bytes. -/
theorem assemble_cons (bs : List Nat) (m : Msg) (n : Nat)
    (hok : Msg.from_bytes bs = .ok (m, n)) (hd : m.header.msg_type ≠ .Done) :
    assemble bs = RRes.map (fun rest => m :: rest) (assemble (bs.drop n)) := by
  obtain ⟨hn, hblen⟩ := Msg.from_bytes_ok_bounds bs m n hok
  unfold assemble
  obtain ⟨k, hk⟩ : ∃ k, bs.length = k + 1 := ⟨bs.length - 1, by omega⟩
  rw [hk]
  have hgo : assembleGo k (bs.drop n) = assembleGo (bs.drop n).length (bs.drop n) :=
    assembleGo_fuel k (bs.drop n).length (bs.drop n)
      (by simp only [List.length_drop]; omega) (Nat.le_refl _)
  cases hmt : m.header.msg_type
  case Done => exact absurd hmt hd
  all_goals simp [assembleGo, hok, hmt, hgo]

/-- When the datagram fits the scratch buffer, the buffer after receiving is
the datagram followed by the old bytes beyond it. -/
theorem Socket.recvBuf_eq (old dgram : List Nat) (h : dgram.length ≤ old.length) :
    Socket.recvBuf old dgram = dgram ++ old.drop dgram.length := by
  unfold Socket.recvBuf
  rw [List.take_of_length_le h, Nat.min_eq_left h]

/-- Any bitwise OR of two `k`-bit values fits in `k` bits. -/
theorem lor_lt_two_pow {a b k : Nat} (ha : a < 2 ^ k) (hb : b < 2 ^ k) :
    a ||| b < 2 ^ k := Nat.bitwise_lt ha hb

/-- Every single setter call preserves the `u32`/`u16` field ranges. -/
theorem applyOp_wf (h : NlMsgHeader) (op : HOp) (hwf : h.wf) : (applyOp h op).wf := by
  obtain ⟨h1, h2, h3, h4, h5⟩ := hwf
  cases op <;>
    simp only [applyOp, NlMsgHeader.data_length, NlMsgHeader.multipart, NlMsgHeader.ack,
      NlMsgHeader.echo, NlMsgHeader.seq, NlMsgHeader.pid, NlMsgHeader.replace,
      NlMsgHeader.excl, NlMsgHeader.create, NlMsgHeader.append, NlMsgHeader.root,
      NlMsgHeader.match_provided, NlMsgHeader.atomic, NlMsgHeader.dump, NlMsgHeader.wf] <;>
    refine ⟨?_, ?_, ?_, ?_, ?_⟩ <;>
    first
      | assumption
      | exact Nat.mod_lt _ (by decide)
      | exact lor_lt_two_pow (by assumption) (by decide)

/-- Any chain of setter calls preserves the field ranges. -/
theorem applyOps_wf (h : NlMsgHeader) (ops : List HOp) (hwf : h.wf) :
    (applyOps h ops).wf := by
  induction ops generalizing h with
  | nil => exact hwf
  | cons op ops ih => exact ih _ (applyOp_wf h op hwf)

theorem request_wf : NlMsgHeader.request.wf := by decide

/-- C2: the header built by `request().data_length(4).pid(9).seq(1).dump()`
encodes on a little-endian host to exactly
`[20,0,0,0, 0,0, 1,3, 1,0,0,0, 9,0,0,0]`, and decoding those 16 bytes
reproduces an equal header, consuming exactly 16 bytes. -/
theorem header_example_encode_decode :
    ((((NlMsgHeader.request.data_length 4).pid 9).seq 1).dump).bytes =
        [20, 0, 0, 0, 0, 0, 1, 3, 1, 0, 0, 0, 9, 0, 0, 0] ∧
      NlMsgHeader.from_bytes [20, 0, 0, 0, 0, 0, 1, 3, 1, 0, 0, 0, 9, 0, 0, 0] =
        some (((((NlMsgHeader.request.data_length 4).pid 9).seq 1).dump), 16) := by
  decide

/-- C3: starting from `request()`, any chain of `data_length`, flag setter,
`seq` and `pid` calls produces a header that encode-then-decode reproduces
exactly, consuming exactly 16 bytes. -/
theorem header_roundtrip_after_any_setters (ops : List HOp) :
    NlMsgHeader.from_bytes (applyOps NlMsgHeader.request ops).bytes =
      some (applyOps NlMsgHeader.request ops, 16) := by
  have hwf := applyOps_wf NlMsgHeader.request ops request_wf
  have h := NlMsgHeader.from_bytes_bytes _ hwf []
  simpa using h

/-- C7: header decode fails whenever fewer than 16 bytes are available, and
whenever it succeeds it reports exactly 16 bytes consumed. -/
theorem header_decode_short_fails_consumes_16 (bs : List Nat) :
    (bs.length < 16 → NlMsgHeader.from_bytes bs = none) ∧
      ∀ h n, NlMsgHeader.from_bytes bs = some (h, n) → n = 16 :=
  ⟨NlMsgHeader.from_bytes_short bs,
    fun h n hok => (NlMsgHeader.from_bytes_ok bs h n hok).1⟩

/-- Witness for C7 at the concrete 3-byte buffer `[1, 2, 3]`. -/
theorem header_decode_short_fails_consumes_16_witness :
    NlMsgHeader.from_bytes [1, 2, 3] = none :=
  (header_decode_short_fails_consumes_16 [1, 2, 3]).1 (by decide)

/-- C6: decoding an error record from a 4-byte code followed by a decodable
header yields `Ack` of the embedded header when the code is zero and `Err`
otherwise, consuming 4 + 16 = 20 bytes; it fails when the embedded header
cannot be decoded. -/
theorem nlmsg_error_ack_err_decode :
    (∀ (c tail : List Nat) (h : NlMsgHeader),
        c.length = 4 → NlMsgHeader.from_bytes tail = some (h, 16) →
        Payload.nlmsg_error (c ++ tail) =
          some (if leVal c = 0 then Payload.Ack h else Payload.Err h, 20)) ∧
      ∀ bs : List Nat, 4 ≤ bs.length → NlMsgHeader.from_bytes (bs.drop 4) = none →
        Payload.nlmsg_error bs = none := by
  constructor
  · intro c tail h hc htail
    have hlen : (4 : Nat) ≤ (c ++ tail).length := by
      simp [List.length_append]; omega
    have htake : (c ++ tail).take 4 = c := List.take_left' hc
    have hdrop : (c ++ tail).drop 4 = tail := List.drop_left' hc
    simp only [Payload.nlmsg_error, readLE, if_pos hlen, htake, hdrop, htail,
      Option.some_bind]
    by_cases hz : leVal c = 0 <;> simp [hz, pure]
  · intro bs hlen hfail
    simp [Payload.nlmsg_error, readLE, if_pos hlen, hfail]

/-- Witness for C6: code 1 followed by an encoded `request()` header decodes
to `Err` of that header, 20 bytes consumed. -/
theorem nlmsg_error_ack_err_decode_witness :
    Payload.nlmsg_error ([1, 0, 0, 0] ++ NlMsgHeader.request.bytes) =
      some (Payload.Err NlMsgHeader.request, 20) := by
  have h := nlmsg_error_ack_err_decode.1 [1, 0, 0, 0] NlMsgHeader.request.bytes
    NlMsgHeader.request (by decide) (by decide)
  simpa using h

/-- C8: `Payload::bytes` yields the empty sequence for `None`, the slice
itself for `Data`, a 4-byte native-order 0 / 1 followed by the embedded
header bytes for `Ack` / `Err`; in particular a decoded `Err` record's
original nonzero error code (here 5) is not preserved on re-encode. -/
theorem payload_encode_cases :
    Payload.None.bytes = [] ∧
      (∀ b : List Nat, (Payload.Data b).bytes = b) ∧
      (∀ h : NlMsgHeader, (Payload.Ack h).bytes = leBytes 4 0 ++ h.bytes) ∧
      (∀ h : NlMsgHeader, (Payload.Err h).bytes = leBytes 4 1 ++ h.bytes) ∧
      Payload.nlmsg_error (leBytes 4 5 ++ NlMsgHeader.request.bytes) =
        some (Payload.Err NlMsgHeader.request, 20) ∧
      (Payload.Err NlMsgHeader.request).bytes ≠ leBytes 4 5 ++ NlMsgHeader.request.bytes :=
  ⟨rfl, fun _ => rfl, fun _ => rfl, fun _ => rfl, by decide, by decide⟩


/-- C9: a netlink address round-trips through the generic socket address:
the conversion back succeeds because the stored family tag is `AF_NETLINK`,
and the recovered pid and groups equal the originals. -/
theorem netlinkaddr_roundtrip (pid groups : Nat) (hp : pid < 2 ^ 32) (hg : groups < 2 ^ 32) :
    sockaddr_to_netlinkaddr (NetlinkAddr.new pid groups).as_sockaddr =
        some (NetlinkAddr.new pid groups) ∧
      (NetlinkAddr.new pid groups).pid = pid ∧
      (NetlinkAddr.new pid groups).groups = groups := by
  refine ⟨?_, rfl, rfl⟩
  simp only [NetlinkAddr.new, NetlinkAddr.as_sockaddr, sockaddr_to_netlinkaddr,
    leBytes_two, leBytes_four, leVal, List.cons_append, List.nil_append,
    if_pos rfl, List.drop_succ_cons, List.drop_zero, List.take_succ_cons,
    List.take_zero, Option.some.injEq, NetlinkAddr.mk.injEq, sockaddr_nl.mk.injEq]
  rw [if_pos trivial]
  simp only [Option.some.injEq, NetlinkAddr.mk.injEq, sockaddr_nl.mk.injEq]
  refine ⟨trivial, trivial, ?_, ?_⟩ <;> omega

/-- Witness for C9 at pid 7, groups 3. -/
theorem netlinkaddr_roundtrip_witness :
    sockaddr_to_netlinkaddr (NetlinkAddr.new 7 3).as_sockaddr = some (NetlinkAddr.new 7 3) ∧
      (NetlinkAddr.new 7 3).pid = 7 ∧ (NetlinkAddr.new 7 3).groups = 3 :=
  netlinkaddr_roundtrip 7 3 (by decide) (by decide)

theorem Msg.data_bytes_length (h : NlMsgHeader) (b : List Nat) :
    (Msg.new h (.Data b)).bytes.length = 16 + b.length := by
  simp [Msg.bytes, Msg.new, Payload.bytes, NlMsgHeader.bytes_length]

theorem msg_type_ne_done_of_nl_type (h : NlMsgHeader) (h3 : h.nl_type ≠ 3) :
    h.msg_type ≠ .Done := fun hc => h3 ((MsgType.ofNat_eq_Done _).mp hc)

/-- Assembly of a buffer that begins with a well-formed data message followed
by anything at all: the message is prepended and assembly continues on the
remainder. -/
theorem assemble_data_step (h : NlMsgHeader) (b rest : List Nat) (hwf : h.wf)
    (h2 : h.nl_type ≠ 2) (h3 : h.nl_type ≠ 3) (hlen : h.msg_length = 16 + b.length) :
    assemble ((Msg.new h (.Data b)).bytes ++ rest) =
      RRes.map (fun tail => Msg.new h (.Data b) :: tail) (assemble rest) := by
  have hfb := Msg.from_bytes_data h b rest hwf h2 h3 hlen
  have hne : (Msg.new h (.Data b)).header.msg_type ≠ .Done :=
    msg_type_ne_done_of_nl_type h h3
  rw [assemble_cons _ _ _ hfb hne,
    List.drop_left' (Msg.data_bytes_length h b)]

/-- C1: a datagram holding message A, then message B, then a `Done`-typed
message makes `Socket::recv` return exactly `[A, B]`: the loop stops at the
`Done` terminator and does not append it, whatever the scratch buffer held
beyond the datagram. -/
theorem recv_multipart_returns_A_B_excluding_done (old : List Nat)
    (hA hB h3 : NlMsgHeader) (bA bB : List Nat)
    (hwfA : hA.wf) (hA2 : hA.nl_type ≠ 2) (hA3 : hA.nl_type ≠ 3)
    (hlA : hA.msg_length = 16 + bA.length)
    (hwfB : hB.wf) (hB2 : hB.nl_type ≠ 2) (hB3 : hB.nl_type ≠ 3)
    (hlB : hB.msg_length = 16 + bB.length)
    (hwf3 : h3.wf) (h33 : h3.nl_type = 3)
    (hfit : ((Msg.new hA (.Data bA)).bytes ++ (Msg.new hB (.Data bB)).bytes ++
        (Msg.new h3 .None).bytes).length ≤ old.length) :
    Socket.recvMsgs old
        ((Msg.new hA (.Data bA)).bytes ++ (Msg.new hB (.Data bB)).bytes ++
          (Msg.new h3 .None).bytes) =
      .ok [Msg.new hA (.Data bA), Msg.new hB (.Data bB)] := by
  unfold Socket.recvMsgs
  rw [Socket.recvBuf_eq old _ hfit]
  simp only [List.append_assoc]
  rw [assemble_data_step hA bA _ hwfA hA2 hA3 hlA,
    assemble_data_step hB bB _ hwfB hB2 hB3 hlB]
  have hdone : assemble ((Msg.new h3 Payload.None).bytes ++
      old.drop ((Msg.new hA (.Data bA)).bytes ++ ((Msg.new hB (.Data bB)).bytes ++
        (Msg.new h3 Payload.None).bytes)).length) = .ok [] := by
    have hshape : (Msg.new h3 Payload.None).bytes ++
        old.drop ((Msg.new hA (.Data bA)).bytes ++ ((Msg.new hB (.Data bB)).bytes ++
          (Msg.new h3 Payload.None).bytes)).length =
        h3.bytes ++ old.drop ((Msg.new hA (.Data bA)).bytes ++
          ((Msg.new hB (.Data bB)).bytes ++ (Msg.new h3 Payload.None).bytes)).length := by
      simp [Msg.bytes, Msg.new, Payload.bytes]
    rw [hshape]
    exact assemble_done _ _ 16 (Msg.from_bytes_done h3 _ hwf3 h33)
      ((MsgType.ofNat_eq_Done _).mpr h33)
  rw [hdone]
  rfl


theorem Socket.newBuf_length : Socket.newBuf.length = 4096 := by
  rw [Socket.newBuf, List.length_replicate]

/-- Witness for C1: two concrete 4-byte-payload messages followed by a
`done()`-typed header over a fresh (zeroed) scratch buffer. -/
theorem recv_multipart_returns_A_B_excluding_done_witness :
    Socket.recvMsgs Socket.newBuf
        ((Msg.new ⟨20, 0, 1, 1, 100⟩ (.Data [0, 1, 2, 3])).bytes ++
          (Msg.new ⟨20, 0, 1, 2, 100⟩ (.Data [4, 5, 6, 7])).bytes ++
          (Msg.new ⟨16, 3, 2, 0, 100⟩ .None).bytes) =
      .ok [Msg.new ⟨20, 0, 1, 1, 100⟩ (.Data [0, 1, 2, 3]),
        Msg.new ⟨20, 0, 1, 2, 100⟩ (.Data [4, 5, 6, 7])] := by
  exact recv_multipart_returns_A_B_excluding_done Socket.newBuf
    ⟨20, 0, 1, 1, 100⟩ ⟨20, 0, 1, 2, 100⟩ ⟨16, 3, 2, 0, 100⟩ [0, 1, 2, 3] [4, 5, 6, 7]
    (by decide) (by decide) (by decide) (by decide)
    (by decide) (by decide) (by decide) (by decide)
    (by decide) (by decide)
    (by rw [Socket.newBuf_length]
        simp [Msg.bytes, Msg.new, Payload.bytes, NlMsgHeader.bytes_length])

/-- A `panic` outcome of `Msg::from_bytes` implies the header part decoded,
so the buffer held at least 16 bytes. -/
theorem Msg.from_bytes_panic_bound (bs : List Nat) (h : Msg.from_bytes bs = .panic) :
    16 ≤ bs.length := by
  by_contra hlt
  rw [Msg.from_bytes_too_short bs (by omega)] at h
  exact absurd h (by simp)

/-- If decoding the front of the buffer panics, so does the whole assembly
loop. -/
theorem assemble_panic (bs : List Nat) (h : Msg.from_bytes bs = .panic) :
    assemble bs = .panic := by
  have hlen := Msg.from_bytes_panic_bound bs h
  unfold assemble
  obtain ⟨k, hk⟩ : ∃ k, bs.length = k + 1 := ⟨bs.length - 1, by omega⟩
  rw [hk]
  simp [assembleGo, h]

/-- Decoding an all-zero region of at least 16 bytes reaches the unguarded
subtraction with `msg_length = 0` and panics. -/
theorem Msg.from_bytes_zeros (n : Nat) (h : 16 ≤ n) :
    Msg.from_bytes (List.replicate n 0) = .panic := by
  obtain ⟨k, rfl⟩ : ∃ k, n = 16 + k := ⟨n - 16, by omega⟩
  rw [show List.replicate (16 + k) (0 : Nat) = List.replicate 16 0 ++ List.replicate k 0
    from by rw [← List.replicate_add]]
  rw [show List.replicate 16 (0 : Nat) ++ List.replicate k 0 =
    0 :: 0 :: 0 :: 0 :: 0 :: 0 :: 0 :: 0 :: 0 :: 0 :: 0 :: 0 :: 0 :: 0 :: 0 :: 0 ::
      List.replicate k 0 from rfl]
  simp [Msg.from_bytes, NlMsgHeader.from_bytes_cons, leVal, NlMsgHeader.msg_type,
    MsgType.ofNat, nlmsg_header_length_eq]

/-- C5 (amended): when the assembly loop's input buffer consists of exactly
one well-formed message followed by fewer than 16 trailing garbage bytes,
the loop returns only that message, without error: the decode failure on the
garbage is treated as end-of-data, not propagated.  (`Socket::recv` itself
runs the loop over its entire 4096-byte scratch buffer, so for `recv` the
garbage is followed by the rest of the buffer and this need not hold — see
the counterexample.) -/
theorem assemble_prefix_then_short_garbage (h : NlMsgHeader) (b g : List Nat)
    (hwf : h.wf) (h2 : h.nl_type ≠ 2) (h3 : h.nl_type ≠ 3)
    (hlen : h.msg_length = 16 + b.length) (hg : g.length < 16) :
    assemble ((Msg.new h (.Data b)).bytes ++ g) = .ok [Msg.new h (.Data b)] := by
  rw [assemble_data_step h b g hwf h2 h3 hlen,
    assemble_err g (Msg.from_bytes_too_short g hg)]
  rfl

/-- Witness for the amended C5: a concrete 4-byte-payload message followed by
3 garbage bytes. -/
theorem assemble_prefix_then_short_garbage_witness :
    assemble ((Msg.new ⟨20, 0, 1, 0, 0⟩ (.Data [1, 2, 3, 4])).bytes ++ [255, 255, 255]) =
      .ok [Msg.new ⟨20, 0, 1, 0, 0⟩ (.Data [1, 2, 3, 4])] :=
  assemble_prefix_then_short_garbage ⟨20, 0, 1, 0, 0⟩ [1, 2, 3, 4] [255, 255, 255]
    (by decide) (by decide) (by decide) (by decide) (by decide)


/-- The 15 garbage bytes of the C5 counterexample, extended by whatever
follows in the scratch buffer, decode as a phantom 16-byte message with an
empty data payload. -/
theorem Msg.from_bytes_junk16 (rest : List Nat) :
    Msg.from_bytes (16 :: 0 :: 0 :: 0 :: 0 :: 0 :: 0 :: 0 :: 0 :: 0 :: 0 :: 0 ::
        0 :: 0 :: 0 :: 0 :: rest) =
      .ok (Msg.new ⟨16, 0, 0, 0, 0⟩ (.Data []), 16) := by
  simp [Msg.from_bytes, NlMsgHeader.from_bytes_cons, leVal, NlMsgHeader.msg_type,
    MsgType.ofNat, nlmsg_header_length_eq, Payload.data, Msg.new]

/-- Counterexample to C5 as stated: a receive call on a fresh socket (zeroed
4096-byte scratch buffer) whose datagram is one well-formed message followed
by 15 garbage bytes.  `Socket::recv` does not stop at the datagram's end: the
garbage bytes together with the zero fill decode as a further (phantom)
message, after which the loop reads an all-zero header and hits the unguarded
`msg_length - 16` underflow — a panic, not a clean one-message result. -/
theorem recv_trailing_garbage_counterexample :
    Socket.recvMsgs Socket.newBuf
        ((Msg.new ⟨20, 0, 1, 0, 0⟩ (.Data [1, 2, 3, 4])).bytes ++
          [16, 0, 0, 0, 0, 0, 0, 0, 0, 0, 0, 0, 0, 0, 0]) = .panic := by
  unfold Socket.recvMsgs
  have hdlen : ((Msg.new ⟨20, 0, 1, 0, 0⟩ (.Data [1, 2, 3, 4])).bytes ++
      [16, 0, 0, 0, 0, 0, 0, 0, 0, 0, 0, 0, 0, 0, 0]).length = 35 := by decide
  rw [Socket.recvBuf_eq _ _ (by rw [hdlen, Socket.newBuf_length]; omega), hdlen,
    show Socket.newBuf.drop 35 = List.replicate 4061 0 from by
      rw [Socket.newBuf, List.drop_replicate],
    List.append_assoc]
  rw [assemble_data_step ⟨20, 0, 1, 0, 0⟩ [1, 2, 3, 4] _
    (by decide) (by decide) (by decide) (by decide)]
  rw [show ([16, 0, 0, 0, 0, 0, 0, 0, 0, 0, 0, 0, 0, 0, 0] : List Nat) ++
      List.replicate 4061 0 =
      16 :: 0 :: 0 :: 0 :: 0 :: 0 :: 0 :: 0 :: 0 :: 0 :: 0 :: 0 :: 0 :: 0 :: 0 :: 0 ::
        List.replicate 4060 0 from by
    rw [show List.replicate 4061 (0 : Nat) = 0 :: List.replicate 4060 0 from rfl]
    rfl]
  rw [assemble_cons _ _ _ (Msg.from_bytes_junk16 (List.replicate 4060 0)) (by decide)]
  rw [show (16 :: 0 :: 0 :: 0 :: 0 :: 0 :: 0 :: 0 :: 0 :: 0 :: 0 :: 0 :: 0 :: 0 :: 0 :: 0 ::
      List.replicate 4060 (0 : Nat)).drop 16 = List.replicate 4060 0 from rfl]
  rw [assemble_panic _ (Msg.from_bytes_zeros 4060 (by omega))]
  rfl

/-- C10: `Socket::recv` discards the transport's byte count and scans the
socket's whole fixed-size scratch buffer (4096 zero bytes at construction):
when the datagram holds only message A but the buffer bytes beyond it hold a
message B (followed by fewer than 16 leftover bytes), `recv` decodes and
returns B as well, though it was never part of the received datagram. -/
theorem recv_returns_stale_buffer_message (hA hB : NlMsgHeader) (bA bB c g : List Nat)
    (hwfA : hA.wf) (hA2 : hA.nl_type ≠ 2) (hA3 : hA.nl_type ≠ 3)
    (hlA : hA.msg_length = 16 + bA.length)
    (hwfB : hB.wf) (hB2 : hB.nl_type ≠ 2) (hB3 : hB.nl_type ≠ 3)
    (hlB : hB.msg_length = 16 + bB.length)
    (hc : c.length = (Msg.new hA (.Data bA)).bytes.length) (hg : g.length < 16) :
    Socket.newBuf = List.replicate 4096 0 ∧
      Socket.recvMsgs (c ++ (Msg.new hB (.Data bB)).bytes ++ g)
          ((Msg.new hA (.Data bA)).bytes) =
        .ok [Msg.new hA (.Data bA), Msg.new hB (.Data bB)] := by
  refine ⟨rfl, ?_⟩
  unfold Socket.recvMsgs
  have hle : (Msg.new hA (.Data bA)).bytes.length ≤
      (c ++ (Msg.new hB (.Data bB)).bytes ++ g).length := by
    simp only [List.length_append]; omega
  rw [Socket.recvBuf_eq _ _ hle, List.append_assoc,
    show (c ++ ((Msg.new hB (.Data bB)).bytes ++ g)).drop
        (Msg.new hA (.Data bA)).bytes.length =
      (Msg.new hB (.Data bB)).bytes ++ g from by
    rw [← hc, List.drop_left]]
  rw [assemble_data_step hA bA _ hwfA hA2 hA3 hlA,
    assemble_data_step hB bB g hwfB hB2 hB3 hlB,
    assemble_err g (Msg.from_bytes_too_short g hg)]
  rfl

/-- Witness for C10: the stale region of the buffer is exactly message B; the
datagram is message A alone, yet both come back. -/
theorem recv_returns_stale_buffer_message_witness :
    Socket.newBuf = List.replicate 4096 0 ∧
      Socket.recvMsgs
          ((Msg.new ⟨20, 0, 1, 0, 0⟩ (.Data [9, 9, 9, 9])).bytes ++
            (Msg.new ⟨20, 0, 1, 7, 7⟩ (.Data [5, 6, 7, 8])).bytes ++ [])
          ((Msg.new ⟨20, 0, 1, 0, 0⟩ (.Data [9, 9, 9, 9])).bytes) =
        .ok [Msg.new ⟨20, 0, 1, 0, 0⟩ (.Data [9, 9, 9, 9]),
          Msg.new ⟨20, 0, 1, 7, 7⟩ (.Data [5, 6, 7, 8])] :=
  recv_returns_stale_buffer_message ⟨20, 0, 1, 0, 0⟩ ⟨20, 0, 1, 7, 7⟩
    [9, 9, 9, 9] [5, 6, 7, 8] (Msg.new ⟨20, 0, 1, 0, 0⟩ (.Data [9, 9, 9, 9])).bytes []
    (by decide) (by decide) (by decide) (by decide)
    (by decide) (by decide) (by decide) (by decide)
    rfl (by decide)

/-- C4 (code bug): on a buffer whose first 16 bytes decode to a header with
length field 12 (less than the 16-byte header size) and type `Request`
(neither `Done` nor `Error`), `Msg::from_bytes` reaches the unguarded
`msg_length - header_size` subtraction and underflows: a panic under the
overflow checks the crate's tests build with (a wrap to `2^64 - 4` in
release, where the error then comes from the buffer-length check) — there is
no explicit guard and no clean decoding error as the claim states. -/
theorem msg_decode_underflow_panics :
    NlMsgHeader.from_bytes [12, 0, 0, 0, 0, 0, 0, 0, 0, 0, 0, 0, 0, 0, 0, 0] =
        some (⟨12, 0, 0, 0, 0⟩, 16) ∧
      MsgType.ofNat 0 ≠ .Done ∧ MsgType.ofNat 0 ≠ .Error ∧ (12 : Nat) < 16 ∧
      Msg.from_bytes [12, 0, 0, 0, 0, 0, 0, 0, 0, 0, 0, 0, 0, 0, 0, 0] = .panic := by
  decide
